import Mathlib

/-!
Shallow embedding of the NRV results post-processing layer
(`nrv/nmod/results/_fascicles_results.py` and
`nrv/nmod/results/_myelinated_results.py`), together with theorems that
settle the specification claims about it.

Result containers are modelled as ordered association lists of string keys;
per-axon simulation results (produced by the external solver layer) are
modelled as abstract records carrying exactly the fields and capabilities
the aggregation code consumes (`myelinated`, `diameter`, `is_recruited()`,
`get_membrane_conductivity(x, t)`, `is_blocked`, `n_onset`).
-/

namespace NRV

/-! ## String helpers

Python's substring test `sub in s` is embedded as an executable character-list
scan, and `number_in_str` follows `_fascicles_results.py`. -/

/-- Embeds Python list/str prefix test on character lists. -/
def starts_with_chars : List Char → List Char → Bool
  | [], _ => true
  | _ :: _, [] => false
  | c :: cs, d :: ds => c == d && starts_with_chars cs ds

/-- Embeds Python substring containment on character lists. -/
def chars_contain (pat : List Char) : List Char → Bool
  | [] => starts_with_chars pat []
  | d :: ds => starts_with_chars pat (d :: ds) || chars_contain pat ds

/-- Embeds Python `sub in s` for strings. -/
def str_in (sub s : String) : Bool :=
  chars_contain sub.toList s.toList

/-- Embeds `number_in_str` from `_fascicles_results.py`: true iff the string
holds at least one digit character. -/
def number_in_str (s : String) : Bool :=
  s.toList.any Char.isDigit

/-- Embeds `recognized_axon_types` from `_fascicles_results.py`. -/
def recognized_axon_types : List String :=
  ["all", "myelinated", "unmyelinated"]

/-! ## Data model -/

/-- One per-axon simulation result, as consumed by the fascicle aggregation
code.  `is_recruited` is the (idempotent, side-effect free) recruitment
detector's answer; `conductivity x t` is the per-axon
`get_membrane_conductivity(x, t, unit, mem_th)` sample, `none` when the
sample is unavailable; `is_blocked` / `n_onset` are the fields written by
`block_summary` (external capability, spec section 4.1). -/
structure axon_entry where
  myelinated : Bool
  diameter : ℚ
  is_recruited : Bool
  y : ℚ
  z : ℚ
  conductivity : ℚ → ℚ → Option ℚ
  is_blocked : Option Bool
  n_onset : ℕ

instance : Inhabited axon_entry :=
  ⟨⟨false, 0, false, 0, 0, fun _ _ => none, none, 0⟩⟩

/-- A value stored in a fascicle result container: either a per-axon result
or some other (metadata) field such as `axons_diameter`. -/
inductive f_entry where
  | ax (a : axon_entry)
  | meta

/-- The `myelinated` tag of an entry, when the entry is a per-axon result. -/
def f_entry.myelinated_tag : f_entry → Option Bool
  | .ax a => some a.myelinated
  | .meta => none

/-- A fascicle result container: an ordered mapping from string keys to
entries, plus the model identifiers stored under
`unmyelinated_param["model"]` / `myelinated_param["model"]`. -/
structure fascicle_results where
  container : List (String × f_entry)
  u_model : String
  m_model : String

namespace fascicle_results

/-- Ordered key list of the container (Python `self.keys()`). -/
def keys (fr : fascicle_results) : List String :=
  fr.container.map Prod.fst

/-- Dictionary lookup `self[k]` (first binding wins). -/
def item (fr : fascicle_results) (k : String) : Option f_entry :=
  (fr.container.find? (fun p => p.1 == k)).map Prod.snd

/-- The `myelinated` tag of the entry stored under `k`, when present. -/
def myelinated_of (fr : fascicle_results) (k : String) : Option Bool :=
  (fr.item k).bind f_entry.myelinated_tag

/-- The per-axon record stored under `k` (a default record when `k` does not
resolve to an axon entry; Python would raise there, and every theorem that
reads these fields only does so on axon-resolving keys). -/
def ax_of (fr : fascicle_results) (k : String) : axon_entry :=
  match fr.item k with
  | some (.ax a) => a
  | _ => default

/-- Keys of per-axon entries: the key filter of `get_axons_key`, keeping
keys that contain the substring `"axon"` and at least one digit. -/
def axon_keys (fr : fascicle_results) : List String :=
  fr.keys.filter (fun i => str_in "axon" i && number_in_str i)

/-- Embeds `fascicle_results.get_axons_key`.  `rise_error` (external
log interface, spec section 7) is modelled from the spec: a fatal
input-validation error stops the call immediately, hence the `Except`
result. -/
def get_axons_key (fr : fascicle_results) (ax_type : String) :
    Except String (List String) :=
  if recognized_axon_types.contains ax_type then
    let axon_keys := fr.axon_keys
    if ax_type ≠ "all" then
      if ax_type = "unmyelinated" then
        .ok (axon_keys.filter (fun i => fr.myelinated_of i == some false))
      else
        .ok (axon_keys.filter (fun i => fr.myelinated_of i == some true))
    else
      .ok axon_keys
  else
    .error "Axon type specified not recognized. Recognized types are: all, myelinated, unmyelinated"

/-- Embeds `fascicle_results.get_n_ax`. -/
def get_n_ax (fr : fascicle_results) (ax_type : String) : Except String ℕ :=
  (fr.get_axons_key ax_type).map List.length

/-- The loop body of `get_recruited_axons_greater_than`: accumulates
`(n_recr, n_tot)` over the axon keys. -/
def recr_count_gt (fr : fascicle_results) (diam : ℚ) (ks : List String) : ℕ × ℕ :=
  ks.foldl
    (fun acc k =>
      if diam < (fr.ax_of k).diameter then
        ((if (fr.ax_of k).is_recruited then acc.1 + 1 else acc.1), acc.2 + 1)
      else acc)
    (0, 0)

/-- The loop body of `get_recruited_axons_lesser_than`: accumulates
`(n_recr, n_tot)` over the axon keys. -/
def recr_count_lt (fr : fascicle_results) (diam : ℚ) (ks : List String) : ℕ × ℕ :=
  ks.foldl
    (fun acc k =>
      if (fr.ax_of k).diameter < diam then
        ((if (fr.ax_of k).is_recruited then acc.1 + 1 else acc.1), acc.2 + 1)
      else acc)
    (0, 0)

/-- Embeds `fascicle_results.get_recruited_axons_greater_than` (value over
`ℚ`; `normalize = false` leaves the plain count). -/
def get_recruited_axons_greater_than (fr : fascicle_results) (diam : ℚ)
    (ax_type : String) (normalize : Bool) : Except String ℚ :=
  (fr.get_axons_key ax_type).map (fun ks =>
    let c := recr_count_gt fr diam ks
    if normalize then (c.1 : ℚ) / (c.2 : ℚ) else (c.1 : ℚ))

/-- Embeds `fascicle_results.get_recruited_axons_lesser_than`. -/
def get_recruited_axons_lesser_than (fr : fascicle_results) (diam : ℚ)
    (ax_type : String) (normalize : Bool) : Except String ℚ :=
  (fr.get_axons_key ax_type).map (fun ks =>
    let c := recr_count_lt fr diam ks
    if normalize then (c.1 : ℚ) / (c.2 : ℚ) else (c.1 : ℚ))

/-- The accumulator loop of `fascicle_results.get_membrane_conductivity`:
extends `g` axon by axon and aborts with `none` on the first unavailable
sample. -/
def cond_loop (fr : fascicle_results) (x t : ℚ) :
    List String → List ℚ → Option (List ℚ)
  | [], g => some g
  | k :: ks, g =>
    match (fr.ax_of k).conductivity x t with
    | some gv => cond_loop fr x t ks (g ++ [gv])
    | none => none

/-- Embeds `fascicle_results.get_membrane_conductivity`: per-axon samples at
`(x, t)` over `get_axons_key()`, failing fast to `none`.  The `unit` and
`mem_th` arguments are forwarded unchanged to the per-axon sampler and are
absorbed into the abstract `conductivity` field. -/
def get_membrane_conductivity (fr : fascicle_results) (x t : ℚ) :
    Option (List ℚ) :=
  cond_loop fr x t fr.axon_keys []

end fascicle_results

/-! ## Units and materials

The units module (`nrv/utils/units.py`) and the materials registry
(`nrv/fmod/materials.py`) are code of this repository that is not under the
excerpt; they are modelled from the spec (sections 6 and 4.2). -/

/-- Modelled from the spec: the units module's named-unit table, giving each
recognized unit string its size relative to the centimetre-based base unit
of its family.  Only the unit strings appearing in the embedded call sites
need a non-trivial entry; every factor is nonzero. -/
def unit_factor (u : String) : ℚ :=
  if u = "S/m**2" then 1 / 10000 else 1

/-- Modelled from the spec: `convert(value, from_unit, to_unit)`, the units
module's named-unit conversion (factor-based, so converting a unit to
itself is the identity). -/
def convert (v : ℚ) (u_from u_to : String) : ℚ :=
  v * unit_factor u_from / unit_factor u_to

/-- Modelled from the spec: `from_nrv_unit(value, unit)` expresses a value
held in NRV internal units in the named unit; NRV lengths are in
micrometres, so converting a length to centimetres divides by `10 ^ 4`. -/
def from_nrv_unit (v : ℚ) (u : String) : ℚ :=
  if u = "cm" then v / 10000 else v

/-- Modelled from the spec: `to_nrv_unit(value, unit)` reads a value
expressed in the named unit into NRV internal units; NRV frequencies are in
kilohertz, so a megahertz-equivalent value is multiplied by `1000`
(spec section 4.2: "unit-converted from megahertz-equivalent to
kilohertz-equivalent"). -/
def to_nrv_unit (v : ℝ) (u : String) : ℝ :=
  if u = "MHz" then v * 1000 else v

/-- A material of the external materials registry, with its conductivity. -/
structure material where
  name : String
  sigma : ℚ

/-- Modelled from the spec: the `is_mat` / `load_material`
identity-or-by-name resolution of the `endo_mat` argument — a material
value is used as is, a name is looked up in the registry. -/
def resolve_material (registry : String → material) :
    material ⊕ String → material
  | .inl m => m
  | .inr s => registry s

/-- Embeds `np.isclose(a, b)` on rationals with numpy's default tolerances
`rtol = 1e-5`, `atol = 1e-8`. -/
def np_isclose (a b : ℚ) : Bool :=
  |a - b| ≤ 1 / 100000000 + (1 / 100000) * |b|

namespace fascicle_results

/-- Embeds `fascicle_results.get_membrane_capacitance`, parametrised by the
external `membrane_capacitance_from_model` table (`cap_of_model`).  The
returned pair is `(unmyelinated, myelinated)`. -/
def get_membrane_capacitance (cap_of_model : String → ℚ)
    (fr : fascicle_results) (unit : String) (mem_th : ℚ) : ℚ × ℚ :=
  let u_c_mem := cap_of_model fr.u_model
  let m_c_mem := cap_of_model fr.m_model
  if str_in "2" unit then
    (convert u_c_mem "S/cm**2" unit, convert m_c_mem "S/cm**2" unit)
  else
    (convert (u_c_mem * from_nrv_unit mem_th "cm") "S/cm" unit,
     convert (m_c_mem * from_nrv_unit mem_th "cm") "S/cm" unit)

/-- The per-axon onset counts read back by `get_block_summary_axons`
(in axon-key order), after `block_summary` has written them. -/
def onset_list (fr : fascicle_results) : List ℕ :=
  fr.axon_keys.map (fun k => (fr.ax_of k).n_onset)

/-- The divisor of `plot_block_summary`'s opacity scaling factor
`alpha_g = 1 / np.max(n_onset)`, computed before any per-axon branching. -/
def block_alpha_divisor (fr : fascicle_results) : ℕ :=
  fr.onset_list.foldr max 0

/-- The onset-scaled opacity `n_onset[k] * alpha_g` that
`plot_block_summary` assigns to an axon with onset count `n` (used only on
the branches with `n_onset[k] ≠ 0`). -/
def onset_alpha (fr : fascicle_results) (n : ℕ) : ℚ :=
  (n : ℚ) * (1 / (fr.block_alpha_divisor : ℚ))

end fascicle_results

/-! ## Myelinated axon results (`_myelinated_results.py`) -/

/-- A myelinated axon result: the fields read by the sequence/geometry and
myelin-property methods.  `rec_mode` embeds the source's `rec` key (Lean
reserves the name `rec` for recursors).  `myelin_conductance` and
`myelin_capacitance` are the arrays produced by the regenerated axon's
`get_myelin_conductance()` / `get_myelin_capacitance()` (external solver
layer); `g_mye`, `c_mye`, `f_mye` are the cached derived fields, absent
until computed.  Since real-number arithmetic with `π` is noncomputable in
Lean, a cutoff frequency `f` is stored in `f_mye` as the rational `π * f`
(in kilohertz); theorems interpret the stored value `v` as the real
frequency `v / π`. -/
structure myelinated_results where
  rec_mode : String
  x_rec : List ℚ
  Nseg_per_sec : ℕ
  axon_path_type : List String
  myelin_conductance : List ℚ
  myelin_capacitance : List ℚ
  g_mye : Option (List ℚ)
  c_mye : Option (List ℚ)
  f_mye : Option (List ℚ)

namespace myelinated_results

/-- Embeds `myelinated_results.get_index_myelinated_sequence`.  The first
component records whether the out-of-range warning `rise_warning("index not
in axon")` was emitted (non-fatal: the computation continues either way);
the second is the returned structural label.  As in the source, the section
pattern period is 11 and the divisor is the stored `Nseg_per_sec` plus
one. -/
def get_index_myelinated_sequence (m : myelinated_results) (n : ℕ) :
    Bool × String :=
  if m.rec_mode = "nodes" then (false, "node")
  else
    let warn := decide (m.x_rec.length < n)
    let nseg := m.Nseg_per_sec + 1
    if n = 0 then (warn, m.axon_path_type.headD "")
    else (warn, m.axon_path_type.getD (((n - 1) / nseg) % 11) "")

/-- The search loop of `find_central_node_index`: for
`i = i₀, i₀ + 1, ...` (with `fuel` iterations left) test `n_center + i`
then `n_center - i` for the label `"node"`, returning the first hit. -/
def central_search (m : myelinated_results) (n_center : ℕ) :
    ℕ → ℕ → Option ℕ
  | _, 0 => none
  | i, fuel + 1 =>
    if (m.get_index_myelinated_sequence (n_center + i)).2 = "node" then
      some (n_center + i)
    else if (m.get_index_myelinated_sequence (n_center - i)).2 = "node" then
      some (n_center - i)
    else central_search m n_center (i + 1) fuel

/-- Embeds `myelinated_results.find_central_node_index`.  The first
component records whether the `rise_warning("No node found in the axon")`
fallback was taken; the second is the returned index. -/
def find_central_node_index (m : myelinated_results) : Bool × ℕ :=
  let n_center := m.x_rec.length / 2
  if m.rec_mode = "nodes" then (false, n_center)
  else
    match central_search m n_center 0 n_center with
    | some idx => (false, idx)
    | none => (true, n_center)

/-- Embeds `myelinated_results.get_myelin_properties`, parametrised by the
external materials registry.  Returns the updated result record (with the
cached `g_mye` / `c_mye` / `f_mye` fields) together with the returned
value: `none` on a nodes-only recording (after a logged warning, with no
field written), otherwise the `(g_mye, c_mye, f_mye)` triple.  Following
the representation documented on `myelinated_results`, the cutoff
frequency `g / (2 π c)` converted from megahertz to kilohertz is stored
multiplied by `π`, i.e. as `g / (2 c) * 1000`. -/
def get_myelin_properties (registry : String → material)
    (m : myelinated_results) (endo_mat : Option (material ⊕ String)) :
    myelinated_results × Option (List ℚ × List ℚ × List ℚ) :=
  if m.rec_mode = "nodes" then (m, none)
  else
    let g0 := m.myelin_conductance
    let g1 :=
      match endo_mat with
      | none => g0
      | some em =>
        let mat := resolve_material registry em
        g0.map (fun gv =>
          if np_isclose gv (10 ^ 10) then
            gv * 0 + convert mat.sigma "S/m**2" "S/cm**2"
          else gv)
    let c := m.myelin_capacitance
    let f : List ℚ :=
      (g1.zip c).map (fun p => p.1 / (2 * p.2) * 1000)
    ({ m with g_mye := some g1, c_mye := some c, f_mye := some f },
     some (g1, c, f))

end myelinated_results

/-! ## Concrete instances

Small concrete result records used to exercise the embedded functions on
explicit inputs. -/

/-- Builds an axon entry with a position-and-time independent conductivity
sample. -/
def mk_ax (myel : Bool) (diam : ℚ) (recr : Bool) (g : Option ℚ)
    (onset : ℕ) : axon_entry :=
  ⟨myel, diam, recr, 0, 0, fun _ _ => g, some true, onset⟩

/-- A four-axon fascicle with diameters `[3, 5, 7, 9]`, recruitment flags
`[T, F, T, T]`, an unavailable conductivity sample on `axon2`, onset counts
`[0, 1, 2, 3]`, and one aggregate (non-axon) key. -/
def fasc_ex : fascicle_results :=
  ⟨[("axons_diameter", .meta),
    ("axon0", .ax (mk_ax false 3 true (some 1) 0)),
    ("axon1", .ax (mk_ax false 5 false (some 2) 1)),
    ("axon2", .ax (mk_ax true 7 true none 2)),
    ("axon3", .ax (mk_ax true 9 true (some 4) 3))], "HH", "MRG"⟩

/-- A three-axon fascicle on which every conductivity sample is
available. -/
def fasc_ok : fascicle_results :=
  ⟨[("axon0", .ax (mk_ax false 3 true (some 1) 0)),
    ("axon1", .ax (mk_ax true 5 false (some 2) 0)),
    ("axon2", .ax (mk_ax true 9 true (some 4) 0))], "HH", "MRG"⟩

/-- A nodes-only myelinated recording. -/
def m_nodes : myelinated_results :=
  ⟨"nodes", [0, 1, 2, 3, 4], 3, ["node"], [5], [7], none, none, none⟩

/-- A full recording whose eleven-element structural pattern has its
`"node"` entry at position 5, so the central-node search succeeds at
offset 1. -/
def m_find : myelinated_results :=
  ⟨"all", [0, 1, 2, 3, 4, 5, 6, 7, 8, 9], 0,
   ["MYSA", "FLUT", "STIN", "STIN", "STIN", "node", "STIN", "STIN", "STIN",
    "FLUT", "MYSA"],
   [10 ^ 10, 3], [2, 4], none, none, none⟩

/-- A full recording with no `"node"` label reachable from the midpoint, on
two recorded positions. -/
def m_nonode : myelinated_results :=
  ⟨"all", [0, 1], 1,
   ["MYSA", "FLUT", "STIN", "STIN", "STIN", "STIN", "STIN", "STIN", "STIN",
    "FLUT", "MYSA"],
   [6], [8], none, none, none⟩

/-- A concrete materials registry. -/
def reg_ex : String → material :=
  fun s => ⟨s, 20000⟩

/-! ## Helper lemmas -/

/-- Evaluates `get_axons_key` at `"all"`. -/
theorem get_axons_key_all (fr : fascicle_results) :
    fr.get_axons_key "all" = .ok fr.axon_keys := rfl

/-- Evaluates `get_axons_key` at `"myelinated"`. -/
theorem get_axons_key_myel (fr : fascicle_results) :
    fr.get_axons_key "myelinated" =
      .ok (fr.axon_keys.filter (fun i => fr.myelinated_of i == some true)) := rfl

/-- Evaluates `get_axons_key` at `"unmyelinated"`. -/
theorem get_axons_key_unmyel (fr : fascicle_results) :
    fr.get_axons_key "unmyelinated" =
      .ok (fr.axon_keys.filter (fun i => fr.myelinated_of i == some false)) := rfl

/-! ## Claims -/

/-- C2: for every `ax_type` outside `{"all", "myelinated", "unmyelinated"}`,
`get_axons_key` stops the call with a fatal error (an `Except.error`, since
`rise_error` raises); for `ax_type` in that set it does not fail. -/
theorem get_axons_key_rejects_unrecognized (fr : fascicle_results)
    (ax_type : String) :
    (ax_type ∉ recognized_axon_types →
      ∃ e, fr.get_axons_key ax_type = .error e) ∧
    (ax_type ∈ recognized_axon_types →
      ∃ ks, fr.get_axons_key ax_type = .ok ks) := by
  constructor
  · intro h
    have hc : ¬ (recognized_axon_types.contains ax_type = true) := by
      simpa using h
    exact ⟨_, by unfold fascicle_results.get_axons_key; rw [if_neg hc]⟩
  · intro h
    have h' : ax_type = "all" ∨ ax_type = "myelinated" ∨
        ax_type = "unmyelinated" := by simpa [recognized_axon_types] using h
    rcases h' with h' | h' | h'
    · exact ⟨_, by rw [h']; exact get_axons_key_all fr⟩
    · exact ⟨_, by rw [h']; exact get_axons_key_myel fr⟩
    · exact ⟨_, by rw [h']; exact get_axons_key_unmyel fr⟩

/-- C2 witness: `"blah"` is rejected and each recognized type is
accepted on a concrete fascicle. -/
theorem get_axons_key_rejects_unrecognized_witness :
    (∃ e, fasc_ex.get_axons_key "blah" = .error e) ∧
    (∃ ks, fasc_ex.get_axons_key "myelinated" = .ok ks) :=
  ⟨(get_axons_key_rejects_unrecognized fasc_ex "blah").1 (by decide),
   (get_axons_key_rejects_unrecognized fasc_ex "myelinated").2 (by decide)⟩

/-- C3: on every fascicle whose axon entries carry a boolean `myelinated`
tag, `get_n_ax "all"` is the length of `get_axons_key "all"`, and the
`"myelinated"` and `"unmyelinated"` key lists form a disjoint partition of
the `"all"` key list. -/
theorem axons_key_partition (fr : fascicle_results)
    (h : ∀ k ∈ fr.axon_keys, (fr.myelinated_of k).isSome) :
    fr.get_axons_key "all" = .ok fr.axon_keys ∧
    fr.get_n_ax "all" = .ok fr.axon_keys.length ∧
    ∃ kmy kun,
      fr.get_axons_key "myelinated" = .ok kmy ∧
      fr.get_axons_key "unmyelinated" = .ok kun ∧
      (∀ k, k ∈ fr.axon_keys ↔ (k ∈ kmy ∨ k ∈ kun)) ∧
      (∀ k, ¬(k ∈ kmy ∧ k ∈ kun)) := by
  refine ⟨get_axons_key_all fr, rfl, _, _, get_axons_key_myel fr,
    get_axons_key_unmyel fr, ?_, ?_⟩
  · intro k
    constructor
    · intro hk
      have := h k hk
      rcases Option.isSome_iff_exists.mp this with ⟨b, hb⟩
      cases b
      · exact Or.inr (List.mem_filter.mpr ⟨hk, by simp [hb]⟩)
      · exact Or.inl (List.mem_filter.mpr ⟨hk, by simp [hb]⟩)
    · rintro (hk | hk) <;> exact (List.mem_filter.mp hk).1
  · rintro k ⟨hmy, hun⟩
    have h1 := (List.mem_filter.mp hmy).2
    have h2 := (List.mem_filter.mp hun).2
    simp only [beq_iff_eq] at h1 h2
    rw [h1] at h2
    cases h2

/-- C4 helper: the accumulator loop of `get_recruited_axons_greater_than`
counts the recruited axons and all axons passing the strict diameter
test. -/
theorem recr_count_gt_eq (fr : fascicle_results) (diam : ℚ) :
    ∀ ks : List String,
      fr.recr_count_gt diam ks =
        (ks.countP (fun k =>
           decide (diam < (fr.ax_of k).diameter) && (fr.ax_of k).is_recruited),
         ks.countP (fun k => decide (diam < (fr.ax_of k).diameter))) := by
  have aux : ∀ (ks : List String) (a b : ℕ),
      ks.foldl
        (fun acc k =>
          if diam < (fr.ax_of k).diameter then
            ((if (fr.ax_of k).is_recruited then acc.1 + 1 else acc.1),
             acc.2 + 1)
          else acc) (a, b) =
      (a + ks.countP (fun k =>
         decide (diam < (fr.ax_of k).diameter) && (fr.ax_of k).is_recruited),
       b + ks.countP (fun k => decide (diam < (fr.ax_of k).diameter))) := by
    intro ks
    induction ks with
    | nil => intro a b; simp
    | cons k ks ih =>
      intro a b
      simp only [List.foldl_cons, List.countP_cons]
      by_cases h1 : diam < (fr.ax_of k).diameter
      · by_cases h2 : (fr.ax_of k).is_recruited
        · rw [if_pos h1, if_pos h2, ih]
          simp [h1, h2]
          omega
        · rw [if_pos h1, if_neg h2, ih]
          simp [h1, h2]
          omega
      · rw [if_neg h1, ih]
        simp [h1]
  intro ks
  unfold fascicle_results.recr_count_gt
  rw [aux]
  simp

/-- C4 helper: the analogous count for
`get_recruited_axons_lesser_than`. -/
theorem recr_count_lt_eq (fr : fascicle_results) (diam : ℚ) :
    ∀ ks : List String,
      fr.recr_count_lt diam ks =
        (ks.countP (fun k =>
           decide ((fr.ax_of k).diameter < diam) && (fr.ax_of k).is_recruited),
         ks.countP (fun k => decide ((fr.ax_of k).diameter < diam))) := by
  have aux : ∀ (ks : List String) (a b : ℕ),
      ks.foldl
        (fun acc k =>
          if (fr.ax_of k).diameter < diam then
            ((if (fr.ax_of k).is_recruited then acc.1 + 1 else acc.1),
             acc.2 + 1)
          else acc) (a, b) =
      (a + ks.countP (fun k =>
         decide ((fr.ax_of k).diameter < diam) && (fr.ax_of k).is_recruited),
       b + ks.countP (fun k => decide ((fr.ax_of k).diameter < diam))) := by
    intro ks
    induction ks with
    | nil => intro a b; simp
    | cons k ks ih =>
      intro a b
      simp only [List.foldl_cons, List.countP_cons]
      by_cases h1 : (fr.ax_of k).diameter < diam
      · by_cases h2 : (fr.ax_of k).is_recruited
        · rw [if_pos h1, if_pos h2, ih]
          simp [h1, h2]
          omega
        · rw [if_pos h1, if_neg h2, ih]
          simp [h1, h2]
          omega
      · rw [if_neg h1, ih]
        simp [h1]
  intro ks
  unfold fascicle_results.recr_count_lt
  rw [aux]
  simp

/-- C4: the diameter-stratified recruitment counters count recruited axons
only among axons passing their strict diameter predicate, and normalize by
the number of axons passing that predicate; on the fascicle with diameters
`[3, 5, 7, 9]` and recruitment `[T, F, T, T]`, `greater_than 5` gives 2 of
2 (ratio 1) and `lesser_than 5` gives 1 of 1 (ratio 1). -/
theorem recruited_axons_diameter_stratified :
    (∀ (fr : fascicle_results) (diam : ℚ) (ax_type : String)
       (ks : List String), fr.get_axons_key ax_type = .ok ks →
       (fr.get_recruited_axons_greater_than diam ax_type false =
          .ok (ks.countP (fun k =>
            decide (diam < (fr.ax_of k).diameter) &&
              (fr.ax_of k).is_recruited) : ℚ) ∧
        fr.get_recruited_axons_greater_than diam ax_type true =
          .ok ((ks.countP (fun k =>
              decide (diam < (fr.ax_of k).diameter) &&
                (fr.ax_of k).is_recruited) : ℚ) /
            (ks.countP (fun k => decide (diam < (fr.ax_of k).diameter)) : ℚ))) ∧
       (fr.get_recruited_axons_lesser_than diam ax_type false =
          .ok (ks.countP (fun k =>
            decide ((fr.ax_of k).diameter < diam) &&
              (fr.ax_of k).is_recruited) : ℚ) ∧
        fr.get_recruited_axons_lesser_than diam ax_type true =
          .ok ((ks.countP (fun k =>
              decide ((fr.ax_of k).diameter < diam) &&
                (fr.ax_of k).is_recruited) : ℚ) /
            (ks.countP (fun k => decide ((fr.ax_of k).diameter < diam)) : ℚ)))) ∧
    (fasc_ex.get_recruited_axons_greater_than 5 "all" false = .ok 2 ∧
     fasc_ex.get_recruited_axons_greater_than 5 "all" true = .ok 1 ∧
     fasc_ex.get_recruited_axons_lesser_than 5 "all" false = .ok 1 ∧
     fasc_ex.get_recruited_axons_lesser_than 5 "all" true = .ok 1) := by
  constructor
  · intro fr diam ax_type ks hks
    refine ⟨⟨?_, ?_⟩, ?_, ?_⟩ <;>
      simp [fascicle_results.get_recruited_axons_greater_than,
        fascicle_results.get_recruited_axons_lesser_than, hks,
        recr_count_gt_eq, recr_count_lt_eq, Except.map]
  · refine ⟨rfl, ?_, rfl, ?_⟩
    · have h : fasc_ex.get_recruited_axons_greater_than 5 "all" true =
        .ok (((2 : ℕ) : ℚ) / ((2 : ℕ) : ℚ)) := rfl
      rw [h]
      norm_num
    · have h : fasc_ex.get_recruited_axons_lesser_than 5 "all" true =
        .ok (((1 : ℕ) : ℚ) / ((1 : ℕ) : ℚ)) := rfl
      rw [h]
      norm_num

/-- C4 witness: the general counting form applied to the concrete
fascicle. -/
theorem recruited_axons_diameter_stratified_witness :
    fasc_ex.get_recruited_axons_greater_than 5 "all" false =
      .ok (fasc_ex.axon_keys.countP (fun k =>
        decide ((5 : ℚ) < (fasc_ex.ax_of k).diameter) &&
          (fasc_ex.ax_of k).is_recruited) : ℚ) :=
  (((recruited_axons_diameter_stratified).1 fasc_ex 5 "all" fasc_ex.axon_keys
    (get_axons_key_all fasc_ex)).1).1

/-- C1 helper: the conductivity loop returns `none` exactly when some
remaining axon's sample is unavailable. -/
theorem cond_loop_eq_none_iff (fr : fascicle_results) (x t : ℚ) :
    ∀ (ks : List String) (acc : List ℚ),
      fr.cond_loop x t ks acc = none ↔
        ∃ k ∈ ks, (fr.ax_of k).conductivity x t = none := by
  intro ks
  induction ks with
  | nil => intro acc; simp [fascicle_results.cond_loop]
  | cons k ks ih =>
    intro acc
    simp only [fascicle_results.cond_loop]
    cases hk : (fr.ax_of k).conductivity x t with
    | none => simp [hk]
    | some gv =>
      rw [ih]
      simp [hk]

/-- C1 helper: when every remaining sample is available, the loop appends
exactly the samples, in order. -/
theorem cond_loop_eq_some (fr : fascicle_results) (x t : ℚ) :
    ∀ (ks : List String) (acc : List ℚ),
      (∀ k ∈ ks, (fr.ax_of k).conductivity x t ≠ none) →
      fr.cond_loop x t ks acc =
        some (acc ++ ks.map (fun k => ((fr.ax_of k).conductivity x t).getD 0)) := by
  intro ks
  induction ks with
  | nil => intro acc _; simp [fascicle_results.cond_loop]
  | cons k ks ih =>
    intro acc h
    have hk := h k (List.mem_cons_self k ks)
    cases hkc : (fr.ax_of k).conductivity x t with
    | none => exact absurd hkc hk
    | some gv =>
      simp only [fascicle_results.cond_loop, hkc]
      rw [ih (acc ++ [gv]) (fun k' hk' => h k' (List.mem_cons_of_mem k hk'))]
      simp [hkc]

/-- C1: the aggregate `get_membrane_conductivity` is `none` exactly when at
least one axon's sample at `(x, t)` is unavailable; whenever every sample is
available it returns the list of all per-axon samples in axon-key order,
and any returned list is that full list — never a partial one. -/
theorem fascicle_conductivity_fail_fast (fr : fascicle_results) (x t : ℚ) :
    (fr.get_membrane_conductivity x t = none ↔
      ∃ k ∈ fr.axon_keys, (fr.ax_of k).conductivity x t = none) ∧
    ((∀ k ∈ fr.axon_keys, (fr.ax_of k).conductivity x t ≠ none) →
      fr.get_membrane_conductivity x t =
        some (fr.axon_keys.map
          (fun k => ((fr.ax_of k).conductivity x t).getD 0))) ∧
    (∀ l, fr.get_membrane_conductivity x t = some l →
      l = fr.axon_keys.map
        (fun k => ((fr.ax_of k).conductivity x t).getD 0)) := by
  refine ⟨?_, ?_, ?_⟩
  · exact cond_loop_eq_none_iff fr x t fr.axon_keys []
  · intro h
    have := cond_loop_eq_some fr x t fr.axon_keys [] h
    simpa [fascicle_results.get_membrane_conductivity] using this
  · intro l hl
    have hnone : ¬ (fr.get_membrane_conductivity x t = none) := by
      rw [hl]; simp
    rw [fascicle_results.get_membrane_conductivity,
      cond_loop_eq_none_iff fr x t fr.axon_keys []] at hnone
    push_neg at hnone
    have := cond_loop_eq_some fr x t fr.axon_keys [] hnone
    rw [fascicle_results.get_membrane_conductivity] at hl
    rw [this] at hl
    simpa using hl.symm

/-- C1 witness: on the fascicle whose `axon2` sample is unavailable the
aggregate is `none`; on the fully-available fascicle it is the full sample
list. -/
theorem fascicle_conductivity_fail_fast_witness :
    fasc_ex.get_membrane_conductivity 0 0 = none ∧
    fasc_ok.get_membrane_conductivity 0 0 =
      some (fasc_ok.axon_keys.map
        (fun k => ((fasc_ok.ax_of k).conductivity 0 0).getD 0)) :=
  ⟨(fascicle_conductivity_fail_fast fasc_ex 0 0).1.mpr
      ⟨"axon2", by decide, rfl⟩,
   (fascicle_conductivity_fail_fast fasc_ok 0 0).2.1 (by decide)⟩

/-- C9: `get_membrane_capacitance` dispatches on whether the unit string
contains `"2"`: on the areal branch the result does not depend on the
membrane thickness, the unit-conversion round-trips at `"S/cm**2"`, and the
per-model surface values are converted directly; otherwise each surface
value is multiplied by the membrane thickness (in centimetres) before
conversion. -/
theorem membrane_capacitance_unit_dispatch (cap_of_model : String → ℚ)
    (fr : fascicle_results) (unit : String) (mem_th mem_th' : ℚ) :
    (str_in "2" unit = true →
      fr.get_membrane_capacitance cap_of_model unit mem_th =
        fr.get_membrane_capacitance cap_of_model unit mem_th' ∧
      fr.get_membrane_capacitance cap_of_model unit mem_th =
        (convert (cap_of_model fr.u_model) "S/cm**2" unit,
         convert (cap_of_model fr.m_model) "S/cm**2" unit) ∧
      fr.get_membrane_capacitance cap_of_model "S/cm**2" mem_th =
        (cap_of_model fr.u_model, cap_of_model fr.m_model)) ∧
    (str_in "2" unit = false →
      fr.get_membrane_capacitance cap_of_model unit mem_th =
        (convert (cap_of_model fr.u_model * from_nrv_unit mem_th "cm")
           "S/cm" unit,
         convert (cap_of_model fr.m_model * from_nrv_unit mem_th "cm")
           "S/cm" unit)) := by
  constructor
  · intro h2
    refine ⟨?_, ?_, ?_⟩
    · simp [fascicle_results.get_membrane_capacitance, h2]
    · simp [fascicle_results.get_membrane_capacitance, h2]
    · have : fasc_ex.u_model = fasc_ex.u_model := rfl
      simp [fascicle_results.get_membrane_capacitance, convert, unit_factor,
        str_in, chars_contain, starts_with_chars]
  · intro h2
    simp [fascicle_results.get_membrane_capacitance, h2]

/-- C9 witness: the areal dispatch at `"uF/cm**2"` and the per-length
dispatch at `"S/cm"` on a concrete fascicle. -/
theorem membrane_capacitance_unit_dispatch_witness :
    (fasc_ex.get_membrane_capacitance (fun _ => 3) "uF/cm**2" 7 =
       fasc_ex.get_membrane_capacitance (fun _ => 3) "uF/cm**2" 9 ∧
     fasc_ex.get_membrane_capacitance (fun _ => 3) "uF/cm**2" 7 =
       (convert 3 "S/cm**2" "uF/cm**2", convert 3 "S/cm**2" "uF/cm**2") ∧
     fasc_ex.get_membrane_capacitance (fun _ => 3) "S/cm**2" 7 = (3, 3)) ∧
    fasc_ex.get_membrane_capacitance (fun _ => 3) "S/cm" 7 =
      (convert (3 * from_nrv_unit 7 "cm") "S/cm" "S/cm",
       convert (3 * from_nrv_unit 7 "cm") "S/cm" "S/cm") :=
  ⟨(membrane_capacitance_unit_dispatch (fun _ => 3) fasc_ex "uF/cm**2" 7 9).1
     (by decide),
   (membrane_capacitance_unit_dispatch (fun _ => 3) fasc_ex "S/cm" 7 9).2
     (by decide)⟩

/-- C10 helper: the running natural maximum is zero exactly when every
element is zero. -/
theorem foldr_max_eq_zero_iff (l : List ℕ) :
    l.foldr max 0 = 0 ↔ ∀ n ∈ l, n = 0 := by
  induction l with
  | nil => simp
  | cons a t ih =>
    simp only [List.foldr_cons, List.mem_cons]
    constructor
    · intro h
      have ha : a = 0 := by omega
      have ht : t.foldr max 0 = 0 := by omega
      rintro n (rfl | hn)
      · exact ha
      · exact ih.mp ht n hn
    · intro h
      have ha := h a (Or.inl rfl)
      have ht := ih.mpr (fun n hn => h n (Or.inr hn))
      omega

/-- C10 helper: the running natural maximum of a nonempty list is one of
its elements. -/
theorem foldr_max_mem (l : List ℕ) (h : l ≠ []) : l.foldr max 0 ∈ l := by
  induction l with
  | nil => exact absurd rfl h
  | cons a t ih =>
    cases t with
    | nil => simp
    | cons b u =>
      have ht := ih (by simp)
      simp only [List.foldr_cons] at ht ⊢
      rcases Nat.le_total (b ⊔ List.foldr max 0 u) a with hle | hle
      · rw [Nat.max_eq_left hle]
        exact List.mem_cons_self _ _
      · rw [Nat.max_eq_right hle]
        exact List.mem_cons_of_mem a ht

/-- C10 helper: every element is bounded by the running natural maximum. -/
theorem le_foldr_max (l : List ℕ) : ∀ n ∈ l, n ≤ l.foldr max 0 := by
  induction l with
  | nil => simp
  | cons a t ih =>
    intro n hn
    rcases List.mem_cons.mp hn with rfl | hn
    · simp only [List.foldr_cons]
      omega
    · have := ih n hn
      simp only [List.foldr_cons]
      omega

/-- C10: `plot_block_summary` divides by the maximum onset count before any
per-axon branching, so the divisor is zero exactly when every axon's onset
count is zero (the division by zero happens although no onset-scaled
opacity is needed there); on a fascicle with at least one positive onset
count the divisor is the (finite, positive) maximum onset count and every
axon's onset-scaled opacity is its onset count divided by that maximum. -/
theorem block_summary_alpha_division (fr : fascicle_results)
    (h : fr.axon_keys ≠ []) :
    (fr.block_alpha_divisor = 0 ↔
      ∀ k ∈ fr.axon_keys, (fr.ax_of k).n_onset = 0) ∧
    (fr.block_alpha_divisor ∈ fr.onset_list ∧
     ∀ n ∈ fr.onset_list, n ≤ fr.block_alpha_divisor) ∧
    ((∃ k ∈ fr.axon_keys, 0 < (fr.ax_of k).n_onset) →
      fr.block_alpha_divisor ≠ 0) ∧
    (∀ k ∈ fr.axon_keys,
      fr.onset_alpha (fr.ax_of k).n_onset =
        ((fr.ax_of k).n_onset : ℚ) / (fr.block_alpha_divisor : ℚ)) := by
  have hmem : ∀ k ∈ fr.axon_keys, (fr.ax_of k).n_onset ∈ fr.onset_list := by
    intro k hk
    exact List.mem_map.mpr ⟨k, hk, rfl⟩
  refine ⟨?_, ⟨?_, ?_⟩, ?_, ?_⟩
  · rw [fascicle_results.block_alpha_divisor, foldr_max_eq_zero_iff]
    constructor
    · intro hz k hk
      exact hz _ (hmem k hk)
    · intro hz n hn
      rcases List.mem_map.mp hn with ⟨k, hk, rfl⟩
      exact hz k hk
  · exact foldr_max_mem _ (by simpa [fascicle_results.onset_list] using h)
  · exact le_foldr_max _
  · intro hpos hz
    rcases hpos with ⟨k, hk, hkpos⟩
    have := (foldr_max_eq_zero_iff _).mp hz _ (hmem k hk)
    omega
  · intro k _
    simp [fascicle_results.onset_alpha, div_eq_mul_inv]

/-- C10 witness: the onset maximum and opacity scaling on the concrete
fascicle with onset counts `[0, 1, 2, 3]`. -/
theorem block_summary_alpha_division_witness :
    (fasc_ex.block_alpha_divisor = 0 ↔
      ∀ k ∈ fasc_ex.axon_keys, (fasc_ex.ax_of k).n_onset = 0) ∧
    (fasc_ex.block_alpha_divisor ∈ fasc_ex.onset_list ∧
     ∀ n ∈ fasc_ex.onset_list, n ≤ fasc_ex.block_alpha_divisor) ∧
    ((∃ k ∈ fasc_ex.axon_keys, 0 < (fasc_ex.ax_of k).n_onset) →
      fasc_ex.block_alpha_divisor ≠ 0) ∧
    (∀ k ∈ fasc_ex.axon_keys,
      fasc_ex.onset_alpha (fasc_ex.ax_of k).n_onset =
        ((fasc_ex.ax_of k).n_onset : ℚ) / (fasc_ex.block_alpha_divisor : ℚ)) :=
  block_summary_alpha_division fasc_ex (by decide)

/-- C5: the structural-label classification: in nodes-only recording mode
every index is `"node"`; otherwise index `0` gets the first stored
structural label and every index `n ≥ 1` maps to position
`((n - 1) / (Nseg_per_sec + 1)) % 11` of the stored pattern. -/
theorem myelinated_sequence_index_policy (m : myelinated_results) (n : ℕ) :
    (m.rec_mode = "nodes" →
      (m.get_index_myelinated_sequence n).2 = "node") ∧
    (m.rec_mode ≠ "nodes" →
      (m.get_index_myelinated_sequence 0).2 = m.axon_path_type.headD "" ∧
      (1 ≤ n → (m.get_index_myelinated_sequence n).2 =
        m.axon_path_type.getD (((n - 1) / (m.Nseg_per_sec + 1)) % 11) "")) := by
  constructor
  · intro h
    simp [myelinated_results.get_index_myelinated_sequence, h]
  · intro h
    constructor
    · simp [myelinated_results.get_index_myelinated_sequence, h]
    · intro hn
      have hn0 : n ≠ 0 := by omega
      simp [myelinated_results.get_index_myelinated_sequence, h, hn0]

/-- C5 witness: the classification on a nodes-only recording and on a full
recording at index 7. -/
theorem myelinated_sequence_index_policy_witness :
    (m_nodes.get_index_myelinated_sequence 7).2 = "node" ∧
    (m_find.get_index_myelinated_sequence 0).2 =
      m_find.axon_path_type.headD "" ∧
    (m_find.get_index_myelinated_sequence 7).2 =
      m_find.axon_path_type.getD (((7 - 1) / (m_find.Nseg_per_sec + 1)) % 11)
        "" :=
  ⟨(myelinated_sequence_index_policy m_nodes 7).1 rfl,
   ((myelinated_sequence_index_policy m_find 7).2 (by decide)).1,
   ((myelinated_sequence_index_policy m_find 7).2 (by decide)).2 (by decide)⟩

/-- C6 counterexample: on a full recording of two positions (valid indices
`0` and `1`), index `2` is beyond the valid recorded range yet the
out-of-range warning is not emitted, because the source guard tests
`n > len(x_rec)` rather than `n >= len(x_rec)`. -/
theorem sequence_oob_warning_boundary_cex :
    m_nonode.rec_mode ≠ "nodes" ∧
    m_nonode.x_rec.length = 2 ∧
    (m_nonode.get_index_myelinated_sequence 2).1 = false := by
  refine ⟨by decide, by decide, by decide⟩

/-- C6 (amended): outside nodes-only mode the out-of-range warning is
emitted exactly when `n` strictly exceeds `len(x_rec)` (so the out-of-range
index `n = len(x_rec)` is not warned about), and — whenever the stored
pattern has the full 11 entries — the function still totally returns one of
the stored structural labels, for every `n`. -/
theorem sequence_oob_warning_amended (m : myelinated_results) (n : ℕ)
    (hm : m.rec_mode ≠ "nodes") (hp : 11 ≤ m.axon_path_type.length) :
    ((m.get_index_myelinated_sequence n).1 = true ↔ m.x_rec.length < n) ∧
    (m.get_index_myelinated_sequence n).2 ∈ m.axon_path_type := by
  have hlen : 0 < m.axon_path_type.length := by omega
  constructor
  · by_cases hn0 : n = 0 <;>
      simp [myelinated_results.get_index_myelinated_sequence, hm, hn0]
  · by_cases hn0 : n = 0
    · subst hn0
      have h2 : (m.get_index_myelinated_sequence 0).2 =
          m.axon_path_type.headD "" := by
        simp [myelinated_results.get_index_myelinated_sequence, hm]
      rw [h2]
      cases hpath : m.axon_path_type with
      | nil => rw [hpath] at hlen; cases hlen
      | cons a l => simp
    · have hidx : ((n - 1) / (m.Nseg_per_sec + 1)) % 11 <
          m.axon_path_type.length := by
        have : ((n - 1) / (m.Nseg_per_sec + 1)) % 11 < 11 :=
          Nat.mod_lt _ (by omega)
        omega
      simp only [myelinated_results.get_index_myelinated_sequence, hm,
        if_neg, hn0, ite_false]
      have := List.getD_eq_getElem m.axon_path_type "" hidx
      simp only [hm, ite_false, hn0, this]
      exact List.getElem_mem hidx

/-- C6 witness: the amended warning boundary evaluated at `n = 5` on the
two-position recording. -/
theorem sequence_oob_warning_amended_witness :
    ((m_nonode.get_index_myelinated_sequence 5).1 = true ↔
      m_nonode.x_rec.length < 5) ∧
    (m_nonode.get_index_myelinated_sequence 5).2 ∈ m_nonode.axon_path_type :=
  sequence_oob_warning_amended m_nonode 5 (by decide) (by decide)

/-- C7 helper: the outward search returns `none` when no offset in its
range is classified as a node on either side. -/
theorem central_search_eq_none (m : myelinated_results) (n_center : ℕ) :
    ∀ (fuel i : ℕ),
      (∀ j, i ≤ j → j < i + fuel →
        (m.get_index_myelinated_sequence (n_center + j)).2 ≠ "node" ∧
        (m.get_index_myelinated_sequence (n_center - j)).2 ≠ "node") →
      m.central_search n_center i fuel = none := by
  intro fuel
  induction fuel with
  | zero => intro i _; rfl
  | succ fuel ih =>
    intro i h
    have hi := h i (le_refl i) (by omega)
    simp only [myelinated_results.central_search, if_neg hi.1, if_neg hi.2]
    exact ih (i + 1) (fun j hj1 hj2 => h j (by omega) (by omega))

/-- C7 helper: when `i₀` is the least offset at or after `i` whose `+` or
`-` side is node-classified, and it is within the remaining fuel, the
search returns the `+` side if that is a node and the `-` side
otherwise. -/
theorem central_search_finds (m : myelinated_results) (n_center : ℕ) :
    ∀ (fuel i i₀ : ℕ), i ≤ i₀ → i₀ < i + fuel →
      ((m.get_index_myelinated_sequence (n_center + i₀)).2 = "node" ∨
       (m.get_index_myelinated_sequence (n_center - i₀)).2 = "node") →
      (∀ j, i ≤ j → j < i₀ →
        (m.get_index_myelinated_sequence (n_center + j)).2 ≠ "node" ∧
        (m.get_index_myelinated_sequence (n_center - j)).2 ≠ "node") →
      m.central_search n_center i fuel =
        some (if (m.get_index_myelinated_sequence (n_center + i₀)).2 = "node"
          then n_center + i₀ else n_center - i₀) := by
  intro fuel
  induction fuel with
  | zero => intro i i₀ h1 h2; omega
  | succ fuel ih =>
    intro i i₀ h1 h2 hdisj hleast
    rcases Nat.eq_or_lt_of_le h1 with heq | hlt
    · subst heq
      by_cases hplus :
        (m.get_index_myelinated_sequence (n_center + i)).2 = "node"
      · simp only [myelinated_results.central_search, if_pos hplus,
          if_pos hplus]
      · have hminus :
            (m.get_index_myelinated_sequence (n_center - i)).2 = "node" := by
          rcases hdisj with h | h
          · exact absurd h hplus
          · exact h
        simp only [myelinated_results.central_search, if_neg hplus,
          if_pos hminus]
    · have hi := hleast i (le_refl i) hlt
      simp only [myelinated_results.central_search, if_neg hi.1, if_neg hi.2]
      exact ih (i + 1) i₀ (by omega) (by omega) hdisj
        (fun j hj1 hj2 => hleast j (by omega) hj2)

/-- C7: `find_central_node_index` returns exactly `len(x_rec) / 2` in
nodes-only mode; otherwise it returns, without warning, the index obtained
from the least offset `i₀ < len(x_rec) / 2` whose `+i₀` side (preferred) or
`-i₀` side is node-classified, and when no offset in the search bound is
node-classified it warns and falls back to the raw midpoint. -/
theorem find_central_node_index_policy (m : myelinated_results) :
    (m.rec_mode = "nodes" →
      m.find_central_node_index = (false, m.x_rec.length / 2)) ∧
    (m.rec_mode ≠ "nodes" →
      (∀ i₀, i₀ < m.x_rec.length / 2 →
        ((m.get_index_myelinated_sequence (m.x_rec.length / 2 + i₀)).2 =
            "node" ∨
         (m.get_index_myelinated_sequence (m.x_rec.length / 2 - i₀)).2 =
            "node") →
        (∀ j, j < i₀ →
          (m.get_index_myelinated_sequence (m.x_rec.length / 2 + j)).2 ≠
            "node" ∧
          (m.get_index_myelinated_sequence (m.x_rec.length / 2 - j)).2 ≠
            "node") →
        m.find_central_node_index =
          (false,
           if (m.get_index_myelinated_sequence (m.x_rec.length / 2 + i₀)).2 =
              "node"
           then m.x_rec.length / 2 + i₀ else m.x_rec.length / 2 - i₀)) ∧
      ((∀ j, j < m.x_rec.length / 2 →
          (m.get_index_myelinated_sequence (m.x_rec.length / 2 + j)).2 ≠
            "node" ∧
          (m.get_index_myelinated_sequence (m.x_rec.length / 2 - j)).2 ≠
            "node") →
        m.find_central_node_index = (true, m.x_rec.length / 2))) := by
  constructor
  · intro h
    simp [myelinated_results.find_central_node_index, h]
  · intro h
    constructor
    · intro i₀ hi₀ hdisj hleast
      have hs := central_search_finds m (m.x_rec.length / 2)
        (m.x_rec.length / 2) 0 i₀ (Nat.zero_le _) (by omega) hdisj
        (fun j _ hj2 => hleast j hj2)
      simp [myelinated_results.find_central_node_index, h, hs]
    · intro hnone
      have hs := central_search_eq_none m (m.x_rec.length / 2)
        (m.x_rec.length / 2) 0 (fun j _ hj2 => hnone j (by omega))
      simp [myelinated_results.find_central_node_index, h, hs]

/-- C7 witness: nodes-only mode returns the midpoint; the search finds the
node at offset `+1` on `m_find`; the nodeless recording warns and falls
back to its midpoint. -/
theorem find_central_node_index_policy_witness :
    m_nodes.find_central_node_index = (false, m_nodes.x_rec.length / 2) ∧
    m_find.find_central_node_index = (false,
      if (m_find.get_index_myelinated_sequence (m_find.x_rec.length / 2 + 1)).2 =
        "node"
      then m_find.x_rec.length / 2 + 1 else m_find.x_rec.length / 2 - 1) ∧
    m_nonode.find_central_node_index = (true, m_nonode.x_rec.length / 2) :=
  ⟨(find_central_node_index_policy m_nodes).1 rfl,
   ((find_central_node_index_policy m_find).2 (by decide)).1 1 (by decide)
     (by decide)
     (by
       intro j hj
       have : j = 0 := by omega
       subst this
       exact ⟨by decide, by decide⟩),
   ((find_central_node_index_policy m_nonode).2 (by decide)).2
     (by
       intro j hj
       have hl : m_nonode.x_rec.length = 2 := by decide
       rw [hl] at hj
       have : j = 0 := by omega
       subst this
       exact ⟨by decide, by decide⟩)⟩

/-- C8 helper: `getD` after `map`, inside the mapped list's range. -/
theorem getD_map_pt (fn : ℚ → ℚ) :
    ∀ (l : List ℚ) (i : ℕ), i < l.length →
      (l.map fn).getD i 0 = fn (l.getD i 0) := by
  intro l
  induction l with
  | nil => intro i hi; cases hi
  | cons a t ih =>
    intro i hi
    cases i with
    | zero => rfl
    | succ j =>
      simp only [List.map_cons, List.getD_cons_succ]
      exact ih j (by simpa using hi)

/-- C8 helper: `getD` after mapping over a zip, inside both ranges. -/
theorem zip_map_getD (fn : ℚ × ℚ → ℚ) :
    ∀ (l1 l2 : List ℚ) (i : ℕ), i < min l1.length l2.length →
      ((l1.zip l2).map fn).getD i 0 = fn (l1.getD i 0, l2.getD i 0) := by
  intro l1
  induction l1 with
  | nil => intro l2 i hi; simp at hi
  | cons a t ih =>
    intro l2 i hi
    cases l2 with
    | nil => simp at hi
    | cons b u =>
      cases i with
      | zero => rfl
      | succ j =>
        simp only [List.zip_cons_cons, List.map_cons, List.getD_cons_succ]
        refine ih u j ?_
        simp only [List.length_cons, Nat.min_def] at hi ⊢
        split at hi <;> split <;> omega

/-- C8 helper: a stored cutoff value `g / (2 c) * 1000` interpreted over the
reals is `π` times the cutoff frequency `g / (2 π c)` converted from
megahertz-equivalent to kilohertz-equivalent. -/
theorem stored_cutoff_spec (g c : ℚ) :
    to_nrv_unit ((g : ℝ) / (2 * Real.pi * (c : ℝ))) "MHz" =
      ((g / (2 * c) * 1000 : ℚ) : ℝ) / Real.pi := by
  rw [to_nrv_unit, if_pos rfl]
  push_cast
  by_cases hc : (c : ℝ) = 0
  · simp [hc]
  · have hd : 2 * Real.pi * (c : ℝ) = 2 * (c : ℝ) * Real.pi := by ring
    rw [div_mul_eq_mul_div, div_mul_eq_mul_div, div_div, hd]

/-- C8: `get_myelin_properties` returns `none` and writes nothing on a
nodes-only recording; otherwise it caches and returns `g_mye`, `c_mye` and
the cutoff frequency `g_mye / (2 π c_mye)` converted from
megahertz-equivalent to kilohertz-equivalent (stored as its `π`-multiple,
see `myelinated_results`), where `g_mye` replaces every conductance at the
`1e10` perfect-insulator sentinel by the resolved endoneurial material's
conductivity converted to `S/cm**2` and keeps every other value
unchanged. -/
theorem get_myelin_properties_policy (registry : String → material)
    (m : myelinated_results) (endo_mat : Option (material ⊕ String)) :
    (m.rec_mode = "nodes" →
      m.get_myelin_properties registry endo_mat = (m, none)) ∧
    (m.rec_mode ≠ "nodes" →
      ∃ g1 f,
        m.get_myelin_properties registry endo_mat =
          ({ m with
              g_mye := some g1
              c_mye := some m.myelin_capacitance
              f_mye := some f },
           some (g1, m.myelin_capacitance, f)) ∧
        (endo_mat = none → g1 = m.myelin_conductance) ∧
        (∀ em, endo_mat = some em →
          g1.length = m.myelin_conductance.length ∧
          ∀ i, i < g1.length →
            g1.getD i 0 =
              if np_isclose (m.myelin_conductance.getD i 0) (10 ^ 10) then
                (resolve_material registry em).sigma / 10000
              else m.myelin_conductance.getD i 0) ∧
        f.length = min g1.length m.myelin_capacitance.length ∧
        (∀ i, i < f.length →
          to_nrv_unit ((g1.getD i 0 : ℝ) /
              (2 * Real.pi * (m.myelin_capacitance.getD i 0 : ℝ))) "MHz" =
            ((f.getD i 0 : ℝ)) / Real.pi)) := by
  constructor
  · intro h
    simp [myelinated_results.get_myelin_properties, h]
  · intro h
    cases endo_mat with
    | none =>
      refine ⟨m.myelin_conductance,
        (m.myelin_conductance.zip m.myelin_capacitance).map
          (fun p => p.1 / (2 * p.2) * 1000), ?_, ?_, ?_, ?_, ?_⟩
      · simp [myelinated_results.get_myelin_properties, h]
      · intro _; rfl
      · intro em hem; cases hem
      · simp
      · intro i hi
        simp only [List.length_map, List.length_zip] at hi
        rw [zip_map_getD _ _ _ _ hi]
        exact stored_cutoff_spec _ _
    | some em =>
      refine ⟨m.myelin_conductance.map
          (fun gv => if np_isclose gv (10 ^ 10) then
            gv * 0 + convert (resolve_material registry em).sigma
              "S/m**2" "S/cm**2"
          else gv),
        ((m.myelin_conductance.map
            (fun gv => if np_isclose gv (10 ^ 10) then
              gv * 0 + convert (resolve_material registry em).sigma
                "S/m**2" "S/cm**2"
            else gv)).zip m.myelin_capacitance).map
          (fun p => p.1 / (2 * p.2) * 1000),
        ?_, ?_, ?_, ?_, ?_⟩
      · simp [myelinated_results.get_myelin_properties, h]
      · intro hem; cases hem
      · intro em' hem'
        have he : em = em' := Option.some.inj hem'
        subst he
        refine ⟨by simp, ?_⟩
        intro i hi
        simp only [List.length_map] at hi
        rw [getD_map_pt _ _ _ hi]
        by_cases hcl : np_isclose (m.myelin_conductance.getD i 0) (10 ^ 10)
        · rw [if_pos hcl, if_pos hcl]
          simp [convert, unit_factor]
          ring
        · rw [if_neg hcl, if_neg hcl]
      · simp
      · intro i hi
        simp only [List.length_map, List.length_zip] at hi
        have hi' : i < min (m.myelin_conductance.map
            (fun gv => if np_isclose gv (10 ^ 10) then
              gv * 0 + convert (resolve_material registry em).sigma
                "S/m**2" "S/cm**2"
            else gv)).length m.myelin_capacitance.length := by
          simpa using hi
        rw [zip_map_getD _ _ _ _ hi']
        exact stored_cutoff_spec _ _

/-- C8 witness: the nodes-only recording returns `none` unchanged; the full
recording with a by-name endoneurial material satisfies the replacement and
cutoff characterization. -/
theorem get_myelin_properties_policy_witness :
    m_nodes.get_myelin_properties reg_ex (some (.inr "endoneurium")) =
      (m_nodes, none) ∧
    (∃ g1 f,
      m_find.get_myelin_properties reg_ex (some (.inr "endoneurium")) =
        ({ m_find with
            g_mye := some g1
            c_mye := some m_find.myelin_capacitance
            f_mye := some f },
         some (g1, m_find.myelin_capacitance, f)) ∧
      (some (Sum.inr "endoneurium") = (none : Option (material ⊕ String)) →
        g1 = m_find.myelin_conductance) ∧
      (∀ em, some (Sum.inr "endoneurium") = some em →
        g1.length = m_find.myelin_conductance.length ∧
        ∀ i, i < g1.length →
          g1.getD i 0 =
            if np_isclose (m_find.myelin_conductance.getD i 0) (10 ^ 10) then
              (resolve_material reg_ex em).sigma / 10000
            else m_find.myelin_conductance.getD i 0) ∧
      f.length = min g1.length m_find.myelin_capacitance.length ∧
      (∀ i, i < f.length →
        to_nrv_unit ((g1.getD i 0 : ℝ) /
            (2 * Real.pi * (m_find.myelin_capacitance.getD i 0 : ℝ))) "MHz" =
          ((f.getD i 0 : ℝ)) / Real.pi)) :=
  ⟨(get_myelin_properties_policy reg_ex m_nodes
      (some (.inr "endoneurium"))).1 rfl,
   (get_myelin_properties_policy reg_ex m_find
      (some (.inr "endoneurium"))).2 (by decide)⟩

/-- C3 witness: the partition on a concrete mixed fascicle. -/
theorem axons_key_partition_witness :
    fasc_ex.get_axons_key "all" = .ok fasc_ex.axon_keys ∧
    fasc_ex.get_n_ax "all" = .ok fasc_ex.axon_keys.length ∧
    ∃ kmy kun,
      fasc_ex.get_axons_key "myelinated" = .ok kmy ∧
      fasc_ex.get_axons_key "unmyelinated" = .ok kun ∧
      (∀ k, k ∈ fasc_ex.axon_keys ↔ (k ∈ kmy ∨ k ∈ kun)) ∧
      (∀ k, ¬(k ∈ kmy ∧ k ∈ kun)) :=
  axons_key_partition fasc_ex (by decide)

end NRV
